import Mathlib

/-!
Verification of the pluie asset-pipeline core: a shallow embedding of the
asset classifier, the watch-event scope resolver, the Beta 1.7.3 terrain
atlas composer, the pipeline orchestrator, and the debounced build queue,
together with theorems about the behaviours the design document ascribes
to them.  Image decoding, resizing and filesystem contents are treated as
collaborators: fallible per-file operations are parameterised by oracles,
and buffers produced by the codec are kept symbolic.
-/

namespace Pluie

/-! ## String and path primitives (Node `path` module, POSIX relative paths)

All character-level work is done on `List Char` by structural recursion so
that every definition evaluates inside the kernel. -/

/-- Split a character list at every occurrence of a separator character,
the model of JavaScript `split` with a one-character separator. -/
def splitOnChar (sep : Char) : List Char → List (List Char)
  | [] => [[]]
  | c :: cs =>
    if c = sep then [] :: splitOnChar sep cs
    else
      match splitOnChar sep cs with
      | [] => [[c]]
      | g :: gs => (c :: g) :: gs

/-- Join character-list components with a separator character. -/
def joinWithChar (sep : Char) : List (List Char) → List Char
  | [] => []
  | [g] => g
  | g :: gs => g ++ sep :: joinWithChar sep gs

/-- Does the second list begin with the first? -/
def beginsWith {α : Type} [DecidableEq α] : List α → List α → Bool
  | [], _ => true
  | _ :: _, [] => false
  | a :: as, b :: bs => decide (a = b) && beginsWith as bs

/-- Does the first list contain the second as a contiguous segment?  The
model of JavaScript `String.prototype.includes`. -/
def containsSeg : List Char → List Char → Bool
  | l, sub =>
    if beginsWith sub l then true
    else
      match l with
      | [] => false
      | _ :: rest => containsSeg rest sub

/-- Substring test on strings, JavaScript `s.includes(sub)`. -/
def includesSub (s sub : String) : Bool :=
  containsSeg s.data sub.data

/-- ASCII lowercasing of one character, as `toLowerCase` acts on the ASCII
names this program manipulates. -/
def lowerChar (c : Char) : Char :=
  if 'A' ≤ c ∧ c ≤ 'Z' then Char.ofNat (c.toNat + 32) else c

/-- JavaScript `toLowerCase` restricted to ASCII. -/
def strLower (s : String) : String :=
  String.mk (s.data.map lowerChar)

namespace NodePath

/-- Model of `path.basename` for relative POSIX paths without trailing
separators: the component after the final `/`. -/
def basename (p : String) : String :=
  String.mk ((splitOnChar '/' p.data).getLastD [])

/-- Model of `path.dirname` for relative POSIX paths: everything before the
final `/`, or `.` when there is no separator. -/
def dirname (p : String) : String :=
  let parts := splitOnChar '/' p.data
  if parts.length ≤ 1 then "." else String.mk (joinWithChar '/' parts.dropLast)

/-- Model of `path.extname`: the suffix of the basename from its last dot,
empty when the only dot is the leading character or there is no dot. -/
def extname (p : String) : String :=
  let cs := (basename p).data
  let revTail := cs.reverse.takeWhile (fun c => c ≠ '.')
  if revTail.length = cs.length then ""
  else
    let i := cs.length - revTail.length - 1
    if i = 0 then "" else String.mk (cs.drop i)

end NodePath

/-- Model of JavaScript `parseInt` restricted to the decimal forms that occur
in coordinate keys: an optional sign followed by the longest digit run;
`none` models `NaN` (no digits, or a missing argument).  Leading whitespace
and hexadecimal prefixes are not modelled. -/
def parseIntOpt (s : String) : Option Int :=
  let signRest : Int × List Char :=
    match s.data with
    | '-' :: cs => (-1, cs)
    | '+' :: cs => (1, cs)
    | cs => (1, cs)
  let digits := signRest.2.takeWhile Char.isDigit
  if digits.isEmpty then none
  else some (signRest.1 * (digits.foldl (fun a c => a * 10 + (c.toNat - '0'.toNat)) 0 : Nat))

/-- JavaScript `x >= n` where `x` may be `NaN` (modelled by `none`):
any comparison against `NaN` is false. -/
def jsGE (x : Option Int) (n : Int) : Bool :=
  match x with
  | some v => decide (n ≤ v)
  | none => false

/-- JavaScript multiplication where `NaN` (modelled by `none`) absorbs. -/
def optMul (x : Option Int) (k : Int) : Option Int :=
  match x with
  | some v => some (v * k)
  | none => none

/-! ## Asset data model (`types.ts`) -/

/-- The `AssetType` enum from `types.ts`. -/
inductive AssetType
  | TEXTURE_BLOCKS
  | TEXTURE_ITEMS
  | TEXTURE_GUI
  | TEXTURE_ENVIRONMENT
  | TEXTURE_PARTICLES
  | TEXTURE_MISC
  | TEXTURE_TERRAIN
  | COMPILED_TERRAIN
  | COMPILED_ITEMS
  | METADATA_PACK
  | METADATA_CONFIG
  | MODEL_BLOCK
  | MODEL_ITEM
  | UNKNOWN
deriving DecidableEq, Repr

/-- String value of each `AssetType` enum member. -/
def AssetType.str : AssetType → String
  | .TEXTURE_BLOCKS => "texture_blocks"
  | .TEXTURE_ITEMS => "texture_items"
  | .TEXTURE_GUI => "texture_gui"
  | .TEXTURE_ENVIRONMENT => "texture_environment"
  | .TEXTURE_PARTICLES => "texture_particles"
  | .TEXTURE_MISC => "texture_misc"
  | .TEXTURE_TERRAIN => "texture_terrain"
  | .COMPILED_TERRAIN => "compiled_terrain"
  | .COMPILED_ITEMS => "compiled_items"
  | .METADATA_PACK => "metadata_pack"
  | .METADATA_CONFIG => "metadata_config"
  | .MODEL_BLOCK => "model_block"
  | .MODEL_ITEM => "model_item"
  | .UNKNOWN => "unknown"

/-- The `AssetMetadata` record from `types.ts` (`Date` modelled as `Int`). -/
structure AssetMetadata where
  size : Option (Int × Int) := none
  format : Option String := none
  lastModified : Int := 0
  checksum : Option String := none
deriving DecidableEq, Repr

/-- The `AssetFile` record from `types.ts`. -/
structure AssetFile where
  sourcePath : String
  relativePath : String
  type : AssetType
  metadata : AssetMetadata := {}
deriving DecidableEq, Repr

/-! ## Asset classifier (`AssetDiscovery.determineAssetType`, discovery.ts) -/

/-- Extension allow-list from the first guard of `determineAssetType`. -/
def supportedExts : List String :=
  [".png", ".jpg", ".jpeg", ".gif", ".bmp", ".tiff", ".txt", ".json", ".mcmeta"]

/-- Image-extension list from the final default rule of `determineAssetType`. -/
def imageExts : List String :=
  [".png", ".jpg", ".jpeg", ".gif", ".bmp", ".tiff"]

/-- The classifier `AssetDiscovery.determineAssetType`, translated rule for
rule from `discovery.ts`. -/
def determineAssetType (relativePath : String) : AssetType :=
  let ext := strLower (NodePath.extname relativePath)
  let dir := strLower (NodePath.dirname relativePath)
  let filename := strLower (NodePath.basename relativePath)
  if ext ∉ supportedExts then AssetType.UNKNOWN
  else if filename = "pack.txt" then AssetType.METADATA_PACK
  else if includesSub filename "config" || includesSub filename "settings" then
    AssetType.METADATA_CONFIG
  else if includesSub dir "blocks" then AssetType.TEXTURE_BLOCKS
  else if includesSub dir "terrain" then AssetType.TEXTURE_TERRAIN
  else if includesSub dir "items" then AssetType.TEXTURE_ITEMS
  else if includesSub dir "gui" then AssetType.TEXTURE_GUI
  else if includesSub dir "environment" then AssetType.TEXTURE_ENVIRONMENT
  else if includesSub dir "particles" || includesSub dir "particle" then
    AssetType.TEXTURE_PARTICLES
  else if includesSub dir "misc" then AssetType.TEXTURE_MISC
  else if ext ∈ imageExts then AssetType.TEXTURE_BLOCKS
  else AssetType.UNKNOWN

/-- True when some directory-based texture rule of `determineAssetType`
matches the path's directory. -/
def dirRecognized (relativePath : String) : Bool :=
  let dir := strLower (NodePath.dirname relativePath)
  includesSub dir "blocks" || includesSub dir "terrain" || includesSub dir "items" ||
  includesSub dir "gui" || includesSub dir "environment" || includesSub dir "particles" ||
  includesSub dir "particle" || includesSub dir "misc"

/-- True when a filename-based metadata rule of `determineAssetType`
matches the path's filename. -/
def filenameMetadataRule (relativePath : String) : Bool :=
  let filename := strLower (NodePath.basename relativePath)
  decide (filename = "pack.txt") || includesSub filename "config" ||
    includesSub filename "settings"

/-! ## Change-scope resolver (`TextureWatcher`, watch.ts)

Paths are modelled as lists of components of absolute paths; `relativeParts`
is Node `path.relative` on two absolute paths followed by `split(path.sep)`,
exactly as `parseVersionFromPath` uses it. -/

/-- Length of the common component prefix of two paths. -/
def commonPrefixLen : List String → List String → Nat
  | a :: as, b :: bs => if a = b then commonPrefixLen as bs + 1 else 0
  | _, _ => 0

/-- Node `path.relative(base, target)` on absolute component lists, followed
by `split(path.sep)`: climb out of the non-common part of `base` with `..`
components, then descend into `target`.  An empty relative path splits to
`[""]`, as the empty string does in JavaScript. -/
def relativeParts (base target : List String) : List String :=
  let n := commonPrefixLen base target
  let res := List.replicate (base.length - n) ".." ++ target.drop n
  if res = [] then [""] else res

/-- Result shape of `TextureWatcher.parseVersionFromPath`. -/
structure VersionScope where
  version : Option String
  isShared : Bool
deriving DecidableEq, Repr

/-- `TextureWatcher.parseVersionFromPath`: classify a changed file path
against the versions directory. -/
def parseVersionFromPath (versionsDir filePath : List String) : VersionScope :=
  let parts := relativeParts versionsDir filePath
  if parts.length = 0 ∨ parts.head? = some ".." then ⟨none, false⟩
  else if parts.head? = some "shared" then ⟨none, true⟩
  else ⟨parts.head?, false⟩

/-- `TextureWatcher.getVersionsToRebuild`: fan a change event out to the
affected versions. -/
def getVersionsToRebuild (versions : List String) (scope : VersionScope) : List String :=
  if scope.isShared then versions
  else
    match scope.version with
    | some v => [v]
    | none => []

/-! ## Beta 1.7.3 transformer (`Beta173Transformer`, beta173.ts)

The sharp codec is a collaborator: a buffer is either the decoded-and-resized
content of a file on disk or a solid-colour tile created in memory; whether
sharp succeeds on a given source file is an oracle parameter, as is whether
`fs.copy` succeeds on a given asset. -/

/-- Symbolic image buffer produced by the sharp collaborator. -/
inductive ImageBuf
  | fromDisk (sourcePath : String)
  | solid (r g b alpha : Nat)
deriving DecidableEq, Repr

/-- One entry of `compositeLayers`; offsets are `Option Int` because a
JavaScript `NaN` grid coordinate propagates into the pixel offset. -/
structure Layer where
  input : ImageBuf
  left : Option Int
  top : Option Int
deriving DecidableEq, Repr

/-- The on-disk coordinate map, `TerrainCoordinateData`; `coordinates` keeps
the iteration order of `Object.entries`. -/
structure TerrainCoordinateData where
  rows : Int
  cols : Int
  tile_size : Int
  coordinates : List (String × String)
deriving DecidableEq, Repr

/-- Path of the optional on-disk placeholder tile. -/
def unusedPath : String := "versions/shared/assets/blocks/unused.png"

/-- Basename with the extension stripped, as
`path.basename(p, path.extname(p))` computes it. -/
def basenameNoExt (p : String) : String :=
  let b := NodePath.basename p
  String.mk (b.data.take (b.data.length - (NodePath.extname p).data.length))

/-- Replace every whitespace run by a single underscore
(JavaScript `replace` with a greedy whitespace-run pattern). -/
def replaceWsRuns : List Char → Bool → List Char
  | [], _ => []
  | c :: cs, inRun =>
    if c.isWhitespace then
      (if inRun then [] else ['_']) ++ replaceWsRuns cs true
    else c :: replaceWsRuns cs false

/-- `Beta173Transformer.getTextureNameFromPath`. -/
def getTextureNameFromPath (relativePath : String) : String :=
  String.mk (replaceWsRuns (strLower (basenameNoExt relativePath)).data false)

/-- Decode a coordinate key `"x,y"` as the destructured
`split(',')`/`parseInt` pair does; a missing half is `parseInt(undefined)`,
that is `NaN`. -/
def decodeCoordKey (coordKey : String) : Option Int × Option Int :=
  let parts := (splitOnChar ',' coordKey.data).map String.mk
  (match parts.head? with
   | some s => parseIntOpt s
   | none => none,
   match parts.get? 1 with
   | some s => parseIntOpt s
   | none => none)

/-- Accumulator of the coordinate loop in `processTerrainGrid`. -/
structure GridAcc where
  skippedFiles : List String
  layers : List Layer
deriving DecidableEq, Repr

/-- One iteration of the coordinate loop of
`Beta173Transformer.processTerrainGrid`. -/
def stepEntry (coords : TerrainCoordinateData) (blockAssets : List AssetFile)
    (unusedBuffer : Option ImageBuf) (sharpOk : String → Bool)
    (acc : GridAcc) (entry : String × String) : GridAcc :=
  if entry.1 = "remaining_tiles" then acc
  else if jsGE (decodeCoordKey entry.1).1 coords.cols ||
      jsGE (decodeCoordKey entry.1).2 coords.rows then acc
  else if entry.2 = "unused" then
    { acc with layers := acc.layers ++
        [{ input := match unusedBuffer with
                    | some b => b
                    | none => ImageBuf.solid 255 0 255 1,
           left := optMul (decodeCoordKey entry.1).1 coords.tile_size,
           top := optMul (decodeCoordKey entry.1).2 coords.tile_size }] }
  else
    match blockAssets.find?
        (fun a => decide (getTextureNameFromPath a.relativePath = entry.2)) with
    | some a =>
      if sharpOk a.sourcePath then
        { acc with layers := acc.layers ++
            [{ input := ImageBuf.fromDisk a.sourcePath,
               left := optMul (decodeCoordKey entry.1).1 coords.tile_size,
               top := optMul (decodeCoordKey entry.1).2 coords.tile_size }] }
      else { acc with skippedFiles := acc.skippedFiles ++ [a.relativePath] }
    | none => { acc with skippedFiles := acc.skippedFiles ++ [entry.2] }

/-- Result of the grid phase: the file lists it appended, the staged
composite layers, and whether `terrain.png` was written. -/
structure GridResult where
  processedFiles : List String
  skippedFiles : List String
  layers : List Layer
  wroteTerrain : Bool
deriving DecidableEq, Repr

/-- `Beta173Transformer.processTerrainGrid`.  `unusedExists` is whether the
placeholder asset is on disk; `sharpOk` tells which source files the codec
can process. -/
def processTerrainGrid (assets : List AssetFile) (coords : TerrainCoordinateData)
    (unusedExists : Bool) (sharpOk : String → Bool) : GridResult :=
  let blockAssets := assets.filter (fun a => decide (a.type = AssetType.TEXTURE_BLOCKS))
  if blockAssets.isEmpty then
    { processedFiles := [], skippedFiles := ["terrain.png"], layers := [], wroteTerrain := false }
  else
    let unusedBuffer : Option ImageBuf :=
      if unusedExists then some (ImageBuf.fromDisk unusedPath) else none
    let acc := coords.coordinates.foldl
      (stepEntry coords blockAssets unusedBuffer sharpOk) ⟨[], []⟩
    if acc.layers.isEmpty then
      { processedFiles := [], skippedFiles := acc.skippedFiles ++ ["terrain.png"],
        layers := acc.layers, wroteTerrain := false }
    else
      { processedFiles := ["terrain.png"], skippedFiles := acc.skippedFiles,
        layers := acc.layers, wroteTerrain := true }

/-- One iteration of the copy loop of `Beta173Transformer.copyOtherFiles`:
append the asset's relative path to the processed list when the copy
succeeds, to the skipped list when it fails. -/
def copyStep (copyOk : AssetFile → Bool) (acc : List String × List String)
    (a : AssetFile) : List String × List String :=
  if copyOk a then (acc.1 ++ [a.relativePath], acc.2)
  else (acc.1, acc.2 ++ [a.relativePath])

/-- `Beta173Transformer.copyOtherFiles` over the non-terrain assets;
`copyOk` is the per-file `fs.copy` outcome oracle. -/
def copyOtherFiles (assets : List AssetFile) (copyOk : AssetFile → Bool) :
    List String × List String :=
  (assets.filter (fun a => decide (a.type ≠ AssetType.TEXTURE_TERRAIN))).foldl
    (copyStep copyOk) ([], [])

/-- The `ProcessResult` record from `types.ts` (`outputPath` omitted,
`error` as an optional message). -/
structure ProcessResult where
  success : Bool
  error : Option String := none
  processedFiles : List String
  skippedFiles : List String
deriving DecidableEq, Repr

/-- `Beta173Transformer.transform` on the happy path where the coordinate
file loads: the grid phase runs first, then the copy phase, appending to the
same two lists. -/
def beta173Transform (assets : List AssetFile) (coords : TerrainCoordinateData)
    (unusedExists : Bool) (sharpOk : String → Bool) (copyOk : AssetFile → Bool) :
    ProcessResult :=
  let g := processTerrainGrid assets coords unusedExists sharpOk
  let c := copyOtherFiles assets copyOk
  { success := true,
    processedFiles := g.processedFiles ++ c.1,
    skippedFiles := g.skippedFiles ++ c.2 }

/-! ## Pipeline orchestrator (`AssetPipeline.processVersion`, pipeline.ts)

Filesystem mutations are recorded in an explicit trace; reads (existence
checks, discovery, stat) mutate nothing and are not traced.  The
transformer's `transform` is a function into `Except`: `Except.error`
models a thrown rejection, `Except.ok` a returned `ProcessResult`. -/

/-- A filesystem mutation performed by the orchestrator. -/
inductive FsOp
  | ensureDir (p : String)
  | removeDir (p : String)
deriving DecidableEq, Repr

/-- The `BuildContext` record from `types.ts` (`Date` modelled as `Int`). -/
structure BuildContext where
  version : String
  sourceDir : String
  outputDir : String
  buildDir : String
  timestamp : Int
deriving DecidableEq, Repr

/-- A registered `VersionTransformer`: its identity fields, the optional
`getRequiredAssetTypes` method, and its `transform` behaviour. -/
structure PTransformer where
  version : String
  name : String
  getRequiredAssetTypes : Option (List AssetType)
  transform : List AssetFile → BuildContext → Except String ProcessResult

/-- `DefaultTransformerRegistry.get` over the sequence of `register` calls:
`Map.set` is last-write-wins, so the last registration for the id wins. -/
def registryGet (registrations : List PTransformer) (version : String) :
    Option PTransformer :=
  (registrations.filter (fun t => decide (t.version = version))).getLast?

/-- The asset filter applied by `processVersion` when the transformer
declares required types: keep required kinds plus every `metadata_` kind. -/
def filterForTransformer (transformer : PTransformer) (assets : List AssetFile) :
    List AssetFile :=
  match transformer.getRequiredAssetTypes with
  | some requiredTypes =>
    assets.filter (fun a =>
      requiredTypes.contains a.type || beginsWith "metadata_".data (AssetType.str a.type).data)
  | none => assets

/-- `AssetPipeline.processVersion`: transformer lookup, output and build
directory creation, asset filtering, the transform call, and build-directory
cleanup.  `discovered` is the result of `discoverAllAssets`, `now` the run
timestamp.  The returned trace lists the filesystem mutations in order. -/
def processVersion (registrations : List PTransformer)
    (version sourceDir outputDir : String) (discovered : List AssetFile)
    (now : Int) : ProcessResult × List FsOp :=
  match registryGet registrations version with
  | none =>
    ({ success := false,
       error := some ("No transformer registered for version: " ++ version),
       processedFiles := [], skippedFiles := [] }, [])
  | some transformer =>
    let effs := [FsOp.ensureDir outputDir]
    if discovered.isEmpty then
      ({ success := true, processedFiles := [], skippedFiles := [] }, effs)
    else
      let assetsToProcess := filterForTransformer transformer discovered
      let context : BuildContext :=
        { version := version, sourceDir := sourceDir, outputDir := outputDir,
          buildDir := outputDir ++ "/.build", timestamp := now }
      let effs := effs ++ [FsOp.ensureDir context.buildDir]
      match transformer.transform assetsToProcess context with
      | Except.error e =>
        ({ success := false, error := some e,
           processedFiles := [], skippedFiles := [] }, effs)
      | Except.ok result => (result, effs ++ [FsOp.removeDir context.buildDir])

/-! ## Build queue (`BuildQueue`, build-queue.ts)

A labelled transition system over the single-threaded event loop.  Each
`scheduleBuild` call allocates one timer and one promise; the fresh timer id
doubles as the promise id.  A `fire` event is the timeout callback of a
still-pending timer running (`clearTimeout` removes the timer from the
pending set, so a cleared timer can never fire); a `finish` event is an
in-flight `build` settling with success or failure.  `executeBuild` firing
while the version is already building throws, rejecting the promise without
starting a build. -/

/-- Association-list lookup, the model of `Map.get`. -/
def mapFind {α β : Type} [DecidableEq α] : List (α × β) → α → Option β
  | [], _ => none
  | e :: rest, k => if e.1 = k then some e.2 else mapFind rest k

/-- Association-list key removal, the model of `Map.delete`. -/
def mapErase {α β : Type} [DecidableEq α] : List (α × β) → α → List (α × β)
  | [], _ => []
  | e :: rest, k => if e.1 = k then mapErase rest k else e :: mapErase rest k

/-- Event-loop state of one `BuildQueue` instance. -/
structure QState where
  queues : List (String × Nat)
  pending : List (Nat × String)
  running : List (String × Nat)
  settled : List (Nat × Bool)
  execs : List String
  nextTimer : Nat
deriving DecidableEq, Repr

/-- The empty queue, as constructed. -/
def QState.init : QState := ⟨[], [], [], [], [], 0⟩

/-- Events the event loop can process. -/
inductive QEvent
  | schedule (version : String)
  | fire (t : Nat)
  | finish (version : String) (ok : Bool)
deriving DecidableEq, Repr

/-- `BuildQueue.scheduleBuild(version)`: clear the version's existing timer
if any, then register a fresh timer whose callback will run `executeBuild`
and settle the freshly created promise. -/
def schedStep (s : QState) (version : String) : QState :=
  let cleared :=
    match mapFind s.queues version with
    | some t0 => mapErase s.pending t0
    | none => s.pending
  { s with
    queues := (version, s.nextTimer) :: mapErase s.queues version,
    pending := cleared ++ [(s.nextTimer, version)],
    nextTimer := s.nextTimer + 1 }

/-- One event-loop step.  `none` means the event cannot occur: a cleared
timer never fires and only an in-flight build can finish. -/
def step (s : QState) : QEvent → Option QState
  | QEvent.schedule version => some (schedStep s version)
  | QEvent.fire t =>
    match mapFind s.pending t with
    | none => none
    | some version =>
      let s1 := { s with pending := mapErase s.pending t,
                         queues := mapErase s.queues version }
      if (mapFind s.running version).isSome then
        some { s1 with settled := s1.settled ++ [(t, false)] }
      else
        some { s1 with running := (version, t) :: s1.running,
                       execs := s1.execs ++ [version] }
  | QEvent.finish version ok =>
    match mapFind s.running version with
    | none => none
    | some pid =>
      some { s with running := mapErase s.running version,
                    settled := s.settled ++ [(pid, ok)] }

/-- Run a sequence of event-loop steps. -/
def run (s : QState) : List QEvent → Option QState
  | [] => some s
  | e :: es =>
    match step s e with
    | none => none
    | some s' => run s' es

/-- Iterated `scheduleBuild` for one version (a debounce burst). -/
def schedIter (s : QState) (version : String) : Nat → QState
  | 0 => s
  | n + 1 => schedIter (schedStep s version) version n

/-- A promise id that is not pending, not attached to a running build, not
settled, and below the allocation counter.  Such an id can never settle. -/
def deadId (t : Nat) (s : QState) : Prop :=
  (∀ e ∈ s.pending, e.1 ≠ t) ∧ (∀ e ∈ s.running, e.2 ≠ t) ∧
  (∀ e ∈ s.settled, e.1 ≠ t) ∧ t < s.nextTimer

/-! ## Sample data used by concrete runs -/

/-- A well-formed block texture asset. -/
def sampleBlockAsset : AssetFile :=
  { sourcePath := "versions/shared/assets/blocks/dirt.png",
    relativePath := "blocks/dirt.png", type := AssetType.TEXTURE_BLOCKS }

/-- A block-classified asset whose relative path is literally `terrain.png`. -/
def terrainNamedAsset : AssetFile :=
  { sourcePath := "versions/shared/terrain.png",
    relativePath := "terrain.png", type := AssetType.TEXTURE_BLOCKS }

/-- A transformer whose `transform` rejects (throws). -/
def throwingTransformer : PTransformer :=
  { version := "v", name := "throwing", getRequiredAssetTypes := none,
    transform := fun _ _ => Except.error "boom" }

/-- A transformer whose `transform` returns a successful result. -/
def okTransformer : PTransformer :=
  { version := "v", name := "ok", getRequiredAssetTypes := none,
    transform := fun assets _ => Except.ok
      { success := true, processedFiles := assets.map (fun a => a.relativePath),
        skippedFiles := [] } }

/-! ## C6: missing transformer is a pure failure -/

/-- C6: for every profile id with no registered transformer, `processVersion`
returns `success = false` with empty processed and skipped lists and performs
no filesystem mutation; in particular the output directory is not created. -/
theorem processVersion_missing_transformer (registrations : List PTransformer)
    (version sourceDir outputDir : String) (discovered : List AssetFile) (now : Int)
    (habs : registryGet registrations version = none) :
    processVersion registrations version sourceDir outputDir discovered now =
      ({ success := false,
         error := some ("No transformer registered for version: " ++ version),
         processedFiles := [], skippedFiles := [] }, []) := by
  simp [processVersion, habs]

/-- Witness for C6: an empty registry has no transformer for `nonexistent`,
and processing that profile is a pure failure with an empty effect trace. -/
theorem processVersion_missing_transformer_witness :
    processVersion [] "nonexistent" "src" "out" [sampleBlockAsset] 0 =
      ({ success := false,
         error := some ("No transformer registered for version: " ++ "nonexistent"),
         processedFiles := [], skippedFiles := [] }, []) :=
  processVersion_missing_transformer [] "nonexistent" "src" "out" [sampleBlockAsset] 0 rfl

/-! ## C7: scratch-directory cleanup -/

/-- C7 counterexample: when the transformer's `transform` throws, the run
ends in failure with the build directory created but never removed — the
cleanup is not unconditional. -/
theorem processVersion_scratch_leak :
    (processVersion [throwingTransformer] "v" "src" "out" [sampleBlockAsset] 0).1.success
        = false ∧
    (processVersion [throwingTransformer] "v" "src" "out" [sampleBlockAsset] 0).2
        = [FsOp.ensureDir "out", FsOp.ensureDir "out/.build"] ∧
    FsOp.removeDir "out/.build" ∉
      (processVersion [throwingTransformer] "v" "src" "out" [sampleBlockAsset] 0).2 := by
  refine ⟨rfl, rfl, ?_⟩
  intro h
  simp [processVersion, registryGet, throwingTransformer, filterForTransformer,
    sampleBlockAsset] at h

/-- C7 amended: the build directory is removed whenever the transformer's
`transform` call returns a result — on success and on transform-reported
failure alike; only a thrown rejection skips the cleanup. -/
theorem processVersion_removes_scratch (registrations : List PTransformer)
    (version sourceDir outputDir : String) (discovered : List AssetFile) (now : Int)
    (transformer : PTransformer) (r : ProcessResult)
    (hget : registryGet registrations version = some transformer)
    (hne : discovered.isEmpty = false)
    (hret : transformer.transform (filterForTransformer transformer discovered)
        { version := version, sourceDir := sourceDir, outputDir := outputDir,
          buildDir := outputDir ++ "/.build", timestamp := now } = Except.ok r) :
    (processVersion registrations version sourceDir outputDir discovered now).2
      = [FsOp.ensureDir outputDir, FsOp.ensureDir (outputDir ++ "/.build"),
         FsOp.removeDir (outputDir ++ "/.build")] := by
  simp [processVersion, hget, hne, hret]

/-- Witness for C7 amended: a transformer that returns a result leaves a
trace ending in the removal of the build directory. -/
theorem processVersion_removes_scratch_witness :
    (processVersion [okTransformer] "v" "src" "out" [sampleBlockAsset] 0).2
      = [FsOp.ensureDir "out", FsOp.ensureDir ("out" ++ "/.build"),
         FsOp.removeDir ("out" ++ "/.build")] :=
  processVersion_removes_scratch [okTransformer] "v" "src" "out" [sampleBlockAsset] 0
    okTransformer
    { success := true, processedFiles := [sampleBlockAsset.relativePath], skippedFiles := [] }
    rfl rfl rfl

/-! ## C9: classifier rules -/

/-- C9 counterexample: `config.png` is an image file outside every
recognized directory, yet it classifies as `METADATA_CONFIG`, not as the
block-texture kind — the filename-based metadata rule takes precedence. -/
theorem determineAssetType_config_not_blocks :
    strLower (NodePath.extname "config.png") ∈ imageExts ∧
    dirRecognized "config.png" = false ∧
    determineAssetType "config.png" = AssetType.METADATA_CONFIG ∧
    determineAssetType "config.png" ≠ AssetType.TEXTURE_BLOCKS := by
  refine ⟨by decide, by decide, rfl, by decide⟩

/-- C9 amended: the classifier is a total deterministic function; an
unsupported extension classifies as `UNKNOWN` regardless of directory; and
an image file outside every recognized directory whose filename triggers no
metadata rule classifies as the block-texture kind. -/
theorem determineAssetType_rules :
    (∀ p : String, ∃! k : AssetType, determineAssetType p = k) ∧
    (∀ p : String, strLower (NodePath.extname p) ∉ supportedExts →
      determineAssetType p = AssetType.UNKNOWN) ∧
    (∀ p : String, strLower (NodePath.extname p) ∈ imageExts →
      filenameMetadataRule p = false → dirRecognized p = false →
      determineAssetType p = AssetType.TEXTURE_BLOCKS) := by
  refine ⟨fun p => ⟨determineAssetType p, rfl, fun k hk => hk.symm⟩, ?_, ?_⟩
  · intro p h
    simp [determineAssetType, h]
  · intro p himg hmeta hdir
    have hsup : strLower (NodePath.extname p) ∈ supportedExts := by
      have himp : ∀ e ∈ imageExts, e ∈ supportedExts := by decide
      exact himp _ himg
    simp only [filenameMetadataRule, Bool.or_eq_false_iff,
      decide_eq_false_iff_not] at hmeta
    simp only [dirRecognized, Bool.or_eq_false_iff] at hdir
    obtain ⟨⟨hf1, hf2⟩, hf3⟩ := hmeta
    obtain ⟨⟨⟨⟨⟨⟨⟨hd1, hd2⟩, hd3⟩, hd4⟩, hd5⟩, hd6⟩, hd7⟩, hd8⟩ := hdir
    simp [determineAssetType, hsup, hf1, hf2, hf3, hd1, hd2, hd3, hd4, hd5, hd6,
      hd7, hd8, himg]

/-- Witness for C9 amended: a plain image file in no recognized directory
gets the block-texture default, and an unsupported extension is unknown. -/
theorem determineAssetType_rules_witness :
    determineAssetType "raindrop.png" = AssetType.TEXTURE_BLOCKS ∧
    determineAssetType "blocks/notes.doc" = AssetType.UNKNOWN := by
  refine ⟨determineAssetType_rules.2.2 "raindrop.png" (by decide) (by decide) (by decide),
    determineAssetType_rules.2.1 "blocks/notes.doc" (by decide)⟩

/-! ## C8: change-scope fan-out -/

lemma commonPrefixLen_self_append (base l : List String) :
    commonPrefixLen base (base ++ l) = base.length := by
  induction base with
  | nil => cases l <;> rfl
  | cons a as ih => simp [commonPrefixLen, ih]

lemma commonPrefixLen_le_left (a b : List String) :
    commonPrefixLen a b ≤ a.length := by
  induction a generalizing b with
  | nil => cases b <;> simp [commonPrefixLen]
  | cons x xs ih =>
    cases b with
    | nil => simp [commonPrefixLen]
    | cons y ys =>
      by_cases h : x = y <;> simp [commonPrefixLen, h]
      exact ih ys

lemma isPrefix_of_commonPrefixLen_eq (a : List String) :
    ∀ b, commonPrefixLen a b = a.length → a <+: b := by
  induction a with
  | nil => intro b _; exact List.nil_prefix
  | cons x xs ih =>
    intro b h
    cases b with
    | nil => simp [commonPrefixLen] at h
    | cons y ys =>
      by_cases hxy : x = y
      · subst hxy
        simp [commonPrefixLen] at h
        exact List.cons_prefix_cons.mpr ⟨rfl, ih ys h⟩
      · simp [commonPrefixLen, hxy] at h

/-- C8: a change under the shared root rebuilds every known version; a
change under a version's own directory rebuilds exactly that version; a
path not under the versions directory rebuilds nothing. -/
theorem watch_scope_fanout (versionsDir rest versions : List String) :
    (getVersionsToRebuild versions
        (parseVersionFromPath versionsDir (versionsDir ++ "shared" :: rest)) = versions) ∧
    (∀ v : String, v ≠ "shared" → v ≠ ".." →
      getVersionsToRebuild versions
        (parseVersionFromPath versionsDir (versionsDir ++ v :: rest)) = [v]) ∧
    (∀ p : List String, ¬ versionsDir <+: p →
      getVersionsToRebuild versions (parseVersionFromPath versionsDir p) = []) := by
  have hparts : ∀ v : String,
      relativeParts versionsDir (versionsDir ++ v :: rest) = v :: rest := by
    intro v
    unfold relativeParts
    rw [commonPrefixLen_self_append]
    simp
  refine ⟨?_, ?_, ?_⟩
  · simp [parseVersionFromPath, hparts, getVersionsToRebuild]
  · intro v hv1 hv2
    simp [parseVersionFromPath, hparts, getVersionsToRebuild, hv1, hv2]
  · intro p hp
    have hlt : commonPrefixLen versionsDir p < versionsDir.length := by
      rcases Nat.lt_or_ge (commonPrefixLen versionsDir p) versionsDir.length with h | h
      · exact h
      · exact absurd (isPrefix_of_commonPrefixLen_eq versionsDir p
          (Nat.le_antisymm (commonPrefixLen_le_left _ _) h)) hp
    obtain ⟨m, hm⟩ : ∃ m, versionsDir.length - commonPrefixLen versionsDir p = m + 1 :=
      ⟨versionsDir.length - commonPrefixLen versionsDir p - 1,
        (Nat.succ_pred_eq_of_pos (Nat.sub_pos_of_lt hlt)).symm⟩
    have hrel : relativeParts versionsDir p
        = ".." :: (List.replicate m ".." ++ p.drop (commonPrefixLen versionsDir p)) := by
      simp only [relativeParts]
      rw [hm]
      simp [List.replicate_succ]
    simp [parseVersionFromPath, hrel, getVersionsToRebuild]

/-- Witness for C8: with three registered versions, a shared change
schedules all three, a change under `b1.7.3` schedules exactly it, and a
path outside the versions directory schedules nothing. -/
theorem watch_scope_fanout_witness :
    (getVersionsToRebuild ["a1", "b1.7.3", "c1"]
      (parseVersionFromPath ["root", "versions"]
        (["root", "versions"] ++ "shared" :: ["blocks", "dirt.png"]))
      = ["a1", "b1.7.3", "c1"]) ∧
    (getVersionsToRebuild ["a1", "b1.7.3", "c1"]
      (parseVersionFromPath ["root", "versions"]
        (["root", "versions"] ++ "b1.7.3" :: ["blocks", "dirt.png"]))
      = ["b1.7.3"]) ∧
    (getVersionsToRebuild ["a1", "b1.7.3", "c1"]
      (parseVersionFromPath ["root", "versions"] ["root", "output", "x.zip"]) = []) := by
  refine ⟨(watch_scope_fanout ["root", "versions"] ["blocks", "dirt.png"]
      ["a1", "b1.7.3", "c1"]).1,
    (watch_scope_fanout ["root", "versions"] ["blocks", "dirt.png"]
      ["a1", "b1.7.3", "c1"]).2.1 "b1.7.3" (by decide) (by decide),
    (watch_scope_fanout ["root", "versions"] ["blocks", "dirt.png"]
      ["a1", "b1.7.3", "c1"]).2.2 ["root", "output", "x.zip"] (by decide)⟩

/-! ## C3: unused cells are filled -/

lemma isEmpty_false_of_mem {α : Type} {x : α} {l : List α} (h : x ∈ l) :
    l.isEmpty = false := by
  cases l
  · cases h
  · rfl

lemma stepEntry_layers_extend (coords : TerrainCoordinateData)
    (blockAssets : List AssetFile) (unusedBuffer : Option ImageBuf)
    (sharpOk : String → Bool) (acc : GridAcc) (entry : String × String) :
    acc.layers <+: (stepEntry coords blockAssets unusedBuffer sharpOk acc entry).layers := by
  unfold stepEntry
  repeat'
    first
      | exact List.prefix_rfl
      | exact List.prefix_append _ _
      | split

lemma foldl_stepEntry_layers_mono (coords : TerrainCoordinateData)
    (blockAssets : List AssetFile) (unusedBuffer : Option ImageBuf)
    (sharpOk : String → Bool) (l : List (String × String)) :
    ∀ (acc : GridAcc) (x : Layer), x ∈ acc.layers →
      x ∈ (l.foldl (stepEntry coords blockAssets unusedBuffer sharpOk) acc).layers := by
  induction l with
  | nil => exact fun acc x hx => hx
  | cons e es ih =>
    intro acc x hx
    rw [List.foldl_cons]
    exact ih _ x
      ((stepEntry_layers_extend coords blockAssets unusedBuffer sharpOk acc e).subset hx)

lemma grid_unused_layer_mem (coords : TerrainCoordinateData)
    (blockAssets : List AssetFile) (uB : Option ImageBuf) (sharpOk : String → Bool)
    (coordKey : String) (gx gy : Int)
    (hmem : (coordKey, "unused") ∈ coords.coordinates)
    (hkey : coordKey ≠ "remaining_tiles")
    (hgx : (decodeCoordKey coordKey).1 = some gx)
    (hgy : (decodeCoordKey coordKey).2 = some gy)
    (hx : gx < coords.cols) (hy : gy < coords.rows) :
    ({ input := uB.getD (ImageBuf.solid 255 0 255 1),
       left := some (gx * coords.tile_size),
       top := some (gy * coords.tile_size) } : Layer) ∈
      (coords.coordinates.foldl (stepEntry coords blockAssets uB sharpOk)
        ⟨[], []⟩ : GridAcc).layers := by
  obtain ⟨l1, l2, hsplit⟩ := List.append_of_mem hmem
  have hx' : decide (coords.cols ≤ gx) = false := by
    simpa using not_le.mpr hx
  have hy' : decide (coords.rows ≤ gy) = false := by
    simpa using not_le.mpr hy
  have hbuf : (match uB with
      | some b => b
      | none => ImageBuf.solid 255 0 255 1) = uB.getD (ImageBuf.solid 255 0 255 1) := by
    cases uB <;> rfl
  have hstep : ∀ acc : GridAcc,
      stepEntry coords blockAssets uB sharpOk acc (coordKey, "unused")
        = { acc with layers := acc.layers ++
            [{ input := uB.getD (ImageBuf.solid 255 0 255 1),
               left := some (gx * coords.tile_size),
               top := some (gy * coords.tile_size) }] } := by
    intro acc
    unfold stepEntry
    simp [hkey, hgx, hgy, jsGE, hx', hy', hbuf, optMul]
  rw [hsplit, List.foldl_append, List.foldl_cons, hstep]
  exact foldl_stepEntry_layers_mono coords blockAssets uB sharpOk l2 _ _ (by simp)

/-- C3: every in-bounds coordinate-map entry naming the `unused` sentinel
stages a placeholder layer at its cell (it is never left transparent), and
when no placeholder asset exists on disk that layer is the exact saturated
magenta tile generated on the fly. -/
theorem atlas_unused_cell_filled (assets : List AssetFile)
    (coords : TerrainCoordinateData) (unusedExists : Bool) (sharpOk : String → Bool)
    (coordKey : String) (gx gy : Int)
    (hmem : (coordKey, "unused") ∈ coords.coordinates)
    (hkey : coordKey ≠ "remaining_tiles")
    (hgx : (decodeCoordKey coordKey).1 = some gx)
    (hgy : (decodeCoordKey coordKey).2 = some gy)
    (hx : gx < coords.cols) (hy : gy < coords.rows)
    (hblocks : assets.filter (fun a => decide (a.type = AssetType.TEXTURE_BLOCKS)) ≠ []) :
    (processTerrainGrid assets coords unusedExists sharpOk).wroteTerrain = true ∧
    ∃ l ∈ (processTerrainGrid assets coords unusedExists sharpOk).layers,
      l.left = some (gx * coords.tile_size) ∧ l.top = some (gy * coords.tile_size) ∧
      (unusedExists = false → l.input = ImageBuf.solid 255 0 255 1) := by
  have hbe : (assets.filter
      (fun a => decide (a.type = AssetType.TEXTURE_BLOCKS))).isEmpty = false := by
    cases h : assets.filter (fun a => decide (a.type = AssetType.TEXTURE_BLOCKS))
    · exact absurd h hblocks
    · rfl
  have hmemL := grid_unused_layer_mem coords
    (assets.filter (fun a => decide (a.type = AssetType.TEXTURE_BLOCKS)))
    (if unusedExists then some (ImageBuf.fromDisk unusedPath) else none)
    sharpOk coordKey gx gy hmem hkey hgx hgy hx hy
  have hne := isEmpty_false_of_mem hmemL
  have hres : processTerrainGrid assets coords unusedExists sharpOk =
      { processedFiles := ["terrain.png"],
        skippedFiles := (coords.coordinates.foldl
          (stepEntry coords
            (assets.filter (fun a => decide (a.type = AssetType.TEXTURE_BLOCKS)))
            (if unusedExists then some (ImageBuf.fromDisk unusedPath) else none)
            sharpOk) ⟨[], []⟩ : GridAcc).skippedFiles,
        layers := (coords.coordinates.foldl
          (stepEntry coords
            (assets.filter (fun a => decide (a.type = AssetType.TEXTURE_BLOCKS)))
            (if unusedExists then some (ImageBuf.fromDisk unusedPath) else none)
            sharpOk) ⟨[], []⟩ : GridAcc).layers,
        wroteTerrain := true } := by
    simp only [processTerrainGrid, hbe, Bool.false_eq_true, if_false, hne]
  refine ⟨by rw [hres],
    ⟨(if unusedExists then some (ImageBuf.fromDisk unusedPath) else none :
        Option ImageBuf).getD (ImageBuf.solid 255 0 255 1),
      some (gx * coords.tile_size), some (gy * coords.tile_size)⟩,
    by rw [hres]; exact hmemL, rfl, rfl, ?_⟩
  intro hfalse
  rw [hfalse]
  rfl

/-- Witness for C3: a one-entry map whose cell is `unused`, with no
placeholder asset on disk, stages exactly the magenta tile at that cell. -/
theorem atlas_unused_cell_filled_witness :
    (processTerrainGrid [sampleBlockAsset]
      { rows := 16, cols := 16, tile_size := 16, coordinates := [("0,0", "unused")] }
      false (fun _ => true)).wroteTerrain = true ∧
    ∃ l ∈ (processTerrainGrid [sampleBlockAsset]
      { rows := 16, cols := 16, tile_size := 16, coordinates := [("0,0", "unused")] }
      false (fun _ => true)).layers,
      l.left = some (0 * (16 : Int)) ∧ l.top = some (0 * (16 : Int)) ∧
      (false = false → l.input = ImageBuf.solid 255 0 255 1) :=
  atlas_unused_cell_filled [sampleBlockAsset]
    { rows := 16, cols := 16, tile_size := 16, coordinates := [("0,0", "unused")] }
    false (fun _ => true) "0,0" 0 0 (by decide) (by decide) (by decide) (by decide)
    (by decide) (by decide) (by decide)

/-! ## C4: the out-of-bounds guard -/

/-- C4 counterexample: the key `-1,0` decodes to grid position `(-1, 0)`,
outside `[0, cols)`, yet the guard does not skip it — the entry stages a
layer at the negative pixel offset `-16` instead of being rejected. -/
theorem atlas_negative_coordinate_not_skipped :
    decodeCoordKey "-1,0" = (some (-1), some 0) ∧
    ((-1 : Int) < 0) ∧
    (processTerrainGrid [sampleBlockAsset]
      { rows := 16, cols := 16, tile_size := 16, coordinates := [("-1,0", "unused")] }
      false (fun _ => true)).layers
      = [{ input := ImageBuf.solid 255 0 255 1, left := some (-16), top := some 0 }] := by
  exact ⟨by decide, by decide, by decide⟩

/-- C4 amended: an entry whose decoded grid x is at least `cols` or whose
decoded grid y is at least `rows` is skipped with no effect on the result;
the guard checks only these upper bounds, so negative or non-numeric
coordinates are not rejected by it. -/
theorem atlas_oob_entry_no_effect (assets : List AssetFile)
    (rows cols tile_size : Int) (l1 l2 : List (String × String))
    (entry : String × String) (unusedExists : Bool) (sharpOk : String → Bool)
    (hkey : entry.1 ≠ "remaining_tiles")
    (hoob : jsGE (decodeCoordKey entry.1).1 cols = true ∨
            jsGE (decodeCoordKey entry.1).2 rows = true) :
    processTerrainGrid assets
      { rows := rows, cols := cols, tile_size := tile_size,
        coordinates := l1 ++ entry :: l2 } unusedExists sharpOk
    = processTerrainGrid assets
      { rows := rows, cols := cols, tile_size := tile_size,
        coordinates := l1 ++ l2 } unusedExists sharpOk := by
  have hstep : ∀ (bA : List AssetFile) (uB : Option ImageBuf) (acc : GridAcc),
      stepEntry (⟨rows, cols, tile_size, l1 ++ l2⟩ : TerrainCoordinateData)
        bA uB sharpOk acc entry = acc := by
    intro bA uB acc
    unfold stepEntry
    rw [if_neg hkey, if_pos]
    rcases hoob with h | h <;> simp [h]
  have hco : ∀ (bA : List AssetFile) (uB : Option ImageBuf),
      stepEntry (⟨rows, cols, tile_size, l1 ++ entry :: l2⟩ : TerrainCoordinateData)
        bA uB sharpOk
      = stepEntry (⟨rows, cols, tile_size, l1 ++ l2⟩ : TerrainCoordinateData)
        bA uB sharpOk := fun _ _ => rfl
  simp only [processTerrainGrid, hco]
  rw [List.foldl_append, List.foldl_append, List.foldl_cons, hstep]

/-- Witness for C4 amended: a map containing the over-bounds key `16,0`
composes to the same result as the map without it. -/
theorem atlas_oob_entry_no_effect_witness :
    processTerrainGrid [sampleBlockAsset]
      { rows := 16, cols := 16, tile_size := 16,
        coordinates := [] ++ ("16,0", "dirt") :: [("0,0", "unused")] }
      false (fun _ => true)
    = processTerrainGrid [sampleBlockAsset]
      { rows := 16, cols := 16, tile_size := 16,
        coordinates := [] ++ [("0,0", "unused")] } false (fun _ => true) :=
  atlas_oob_entry_no_effect [sampleBlockAsset] 16 16 16 [] [("0,0", "unused")]
    ("16,0", "dirt") false (fun _ => true) (by decide) (Or.inl (by decide))

/-! ## C5: processed and skipped lists -/

/-- C5 counterexample: with one block asset named `terrain.png` and a map
whose only entry names a missing texture, the grid phase skips
`terrain.png` while the copy phase processes it — the same relative path
appears in both lists of the returned result. -/
theorem transform_lists_overlap :
    (beta173Transform [terrainNamedAsset]
      { rows := 16, cols := 16, tile_size := 16, coordinates := [("0,0", "dirt")] }
      false (fun _ => true) (fun _ => true)).processedFiles = ["terrain.png"] ∧
    (beta173Transform [terrainNamedAsset]
      { rows := 16, cols := 16, tile_size := 16, coordinates := [("0,0", "dirt")] }
      false (fun _ => true) (fun _ => true)).skippedFiles = ["dirt", "terrain.png"] ∧
    "terrain.png" ∈ (beta173Transform [terrainNamedAsset]
      { rows := 16, cols := 16, tile_size := 16, coordinates := [("0,0", "dirt")] }
      false (fun _ => true) (fun _ => true)).processedFiles ∧
    "terrain.png" ∈ (beta173Transform [terrainNamedAsset]
      { rows := 16, cols := 16, tile_size := 16, coordinates := [("0,0", "dirt")] }
      false (fun _ => true) (fun _ => true)).skippedFiles := by
  exact ⟨by decide, by decide, by decide, by decide⟩

/-- C5 amended: the copy phase partitions the relative paths it examines —
counted with multiplicity, every examined non-terrain asset path lands in
exactly one of the two lists; across the whole transform the two lists need
not be disjoint, since the grid phase and the copy phase can each record
the same path. -/
theorem copyOtherFiles_partitions (assets : List AssetFile)
    (copyOk : AssetFile → Bool) (p : String) :
    (copyOtherFiles assets copyOk).1.count p + (copyOtherFiles assets copyOk).2.count p
      = ((assets.filter (fun a => decide (a.type ≠ AssetType.TEXTURE_TERRAIN))).map
          (fun a => a.relativePath)).count p := by
  suffices h : ∀ (l : List AssetFile) (acc : List String × List String),
      (l.foldl (copyStep copyOk) acc).1.count p + (l.foldl (copyStep copyOk) acc).2.count p
        = acc.1.count p + acc.2.count p + (l.map (fun a => a.relativePath)).count p by
    simpa [copyOtherFiles] using
      h (assets.filter (fun a => decide (a.type ≠ AssetType.TEXTURE_TERRAIN))) ([], [])
  intro l
  induction l with
  | nil => intro acc; simp
  | cons a as ih =>
    intro acc
    rw [List.foldl_cons, ih]
    by_cases hc : copyOk a
    · simp [copyStep, hc, List.count_append, List.count_cons]
      omega
    · simp [copyStep, hc, List.count_append, List.count_cons]
      omega

/-! ## Association-list lemmas for the build queue -/

lemma mapErase_subset {α β : Type} [DecidableEq α] {l : List (α × β)} {k : α} :
    ∀ e ∈ mapErase l k, e ∈ l := by
  induction l with
  | nil => intro e he; cases he
  | cons x xs ih =>
    intro e he
    by_cases hx : x.1 = k
    · simp only [mapErase, if_pos hx] at he
      exact List.mem_cons_of_mem x (ih e he)
    · simp only [mapErase, if_neg hx, List.mem_cons] at he
      rcases he with he | he
      · exact he ▸ List.mem_cons_self x xs
      · exact List.mem_cons_of_mem x (ih e he)

lemma mapErase_fst_ne {α β : Type} [DecidableEq α] {l : List (α × β)} {k : α} :
    ∀ e ∈ mapErase l k, e.1 ≠ k := by
  induction l with
  | nil => intro e he; cases he
  | cons x xs ih =>
    intro e he
    by_cases hx : x.1 = k
    · simp only [mapErase, if_pos hx] at he
      exact ih e he
    · simp only [mapErase, if_neg hx, List.mem_cons] at he
      rcases he with he | he
      · exact he ▸ hx
      · exact ih e he

lemma mapErase_eq_self {α β : Type} [DecidableEq α] {l : List (α × β)} {k : α}
    (h : ∀ e ∈ l, e.1 ≠ k) : mapErase l k = l := by
  induction l with
  | nil => rfl
  | cons x xs ih =>
    rw [mapErase, if_neg (h x (List.mem_cons_self x xs))]
    rw [ih (fun e he => h e (List.mem_cons_of_mem x he))]

lemma mapErase_append {α β : Type} [DecidableEq α] (l1 l2 : List (α × β)) (k : α) :
    mapErase (l1 ++ l2) k = mapErase l1 k ++ mapErase l2 k := by
  induction l1 with
  | nil => rfl
  | cons x xs ih =>
    by_cases hx : x.1 = k
    · simp [mapErase, hx, ih]
    · simp [mapErase, hx, ih]

lemma mapFind_eq_none {α β : Type} [DecidableEq α] {l : List (α × β)} {k : α}
    (h : ∀ e ∈ l, e.1 ≠ k) : mapFind l k = none := by
  induction l with
  | nil => rfl
  | cons x xs ih =>
    rw [mapFind, if_neg (h x (List.mem_cons_self x xs))]
    exact ih (fun e he => h e (List.mem_cons_of_mem x he))

lemma mapFind_append_right {α β : Type} [DecidableEq α] {l1 : List (α × β)} {k : α}
    (l2 : List (α × β)) (h : ∀ e ∈ l1, e.1 ≠ k) :
    mapFind (l1 ++ l2) k = mapFind l2 k := by
  induction l1 with
  | nil => rfl
  | cons x xs ih =>
    rw [List.cons_append, mapFind, if_neg (h x (List.mem_cons_self x xs))]
    exact ih (fun e he => h e (List.mem_cons_of_mem x he))

lemma mapFind_some_mem {α β : Type} [DecidableEq α] {l : List (α × β)} {k : α} {b : β}
    (h : mapFind l k = some b) : (k, b) ∈ l := by
  induction l with
  | nil => cases h
  | cons x xs ih =>
    by_cases hx : x.1 = k
    · rw [mapFind, if_pos hx] at h
      obtain rfl : x.2 = b := Option.some_injective _ h
      have : x = (k, x.2) := by
        rw [← hx]
      exact this ▸ List.mem_cons_self x xs
    · rw [mapFind, if_neg hx] at h
      exact List.mem_cons_of_mem x (ih h)

lemma mapErase_idem {α β : Type} [DecidableEq α] (l : List (α × β)) (k : α) :
    mapErase (mapErase l k) k = mapErase l k :=
  mapErase_eq_self (fun e he => mapErase_fst_ne e he)

/-! ## Run lemmas for the build queue -/

lemma run_append (l1 l2 : List QEvent) :
    ∀ s : QState, run s (l1 ++ l2) = (run s l1).bind (fun s' => run s' l2) := by
  induction l1 with
  | nil => intro s; rfl
  | cons e es ih =>
    intro s
    rw [List.cons_append, run, run]
    cases step s e
    · rfl
    · exact ih _

lemma run_replicate_schedule (v : String) :
    ∀ (n : Nat) (s : QState),
      run s (List.replicate n (QEvent.schedule v)) = some (schedIter s v n) := by
  intro n
  induction n with
  | zero => intro s; rfl
  | succ m ih =>
    intro s
    rw [List.replicate_succ, run]
    exact ih (schedStep s v)

lemma schedIter_succ_right (v : String) :
    ∀ (n : Nat) (s : QState), schedIter s v (n + 1) = schedStep (schedIter s v n) v := by
  intro n
  induction n with
  | zero => intro s; rfl
  | succ m ih =>
    intro s
    show schedIter (schedStep s v) v (m + 1) = _
    rw [ih (schedStep s v)]
    rfl

lemma schedStep_of_find_none (s : QState) (v : String)
    (h : mapFind s.queues v = none) :
    schedStep s v =
      { queues := (v, s.nextTimer) :: mapErase s.queues v,
        pending := s.pending ++ [(s.nextTimer, v)],
        running := s.running, settled := s.settled,
        execs := s.execs, nextTimer := s.nextTimer + 1 } := by
  unfold schedStep
  rw [h]

lemma schedStep_of_find_some (s : QState) (v : String) (t0 : Nat)
    (h : mapFind s.queues v = some t0) :
    schedStep s v =
      { queues := (v, s.nextTimer) :: mapErase s.queues v,
        pending := mapErase s.pending t0 ++ [(s.nextTimer, v)],
        running := s.running, settled := s.settled,
        execs := s.execs, nextTimer := s.nextTimer + 1 } := by
  unfold schedStep
  rw [h]

/-- Characterisation of a debounce burst started from a state with no timer
for the version: each call replaces the previous call's timer, so after
`k + 1` calls exactly the `(k+1)`-th timer is pending and nothing else in
the state has changed. -/
lemma schedIter_spec (s : QState) (v : String)
    (hq : mapFind s.queues v = none)
    (hfresh : ∀ e ∈ s.pending, e.1 < s.nextTimer) :
    ∀ k : Nat,
      (schedIter s v (k + 1)).pending = s.pending ++ [(s.nextTimer + k, v)] ∧
      (schedIter s v (k + 1)).queues = (v, s.nextTimer + k) :: mapErase s.queues v ∧
      (schedIter s v (k + 1)).nextTimer = s.nextTimer + k + 1 ∧
      (schedIter s v (k + 1)).running = s.running ∧
      (schedIter s v (k + 1)).execs = s.execs ∧
      (schedIter s v (k + 1)).settled = s.settled := by
  intro k
  induction k with
  | zero =>
    have h1 : schedIter s v 1 = schedStep s v := rfl
    rw [h1, schedStep_of_find_none s v hq]
    simp
  | succ m ih =>
    obtain ⟨hp, hqs, hn, hr, he, hs⟩ := ih
    have hfind : mapFind (schedIter s v (m + 1)).queues v = some (s.nextTimer + m) := by
      rw [hqs, mapFind, if_pos rfl]
    rw [schedIter_succ_right, schedStep_of_find_some _ _ _ hfind]
    have hpe : mapErase (schedIter s v (m + 1)).pending (s.nextTimer + m) = s.pending := by
      rw [hp, mapErase_append, mapErase_eq_self (fun e heq => Nat.ne_of_lt
        (Nat.lt_of_lt_of_le (hfresh e heq) (Nat.le_add_right _ m)))]
      simp [mapErase]
    have hqe : mapErase (schedIter s v (m + 1)).queues v = mapErase s.queues v := by
      rw [hqs, mapErase, if_pos rfl, mapErase_idem]
    refine ⟨?_, ?_, ?_, ?_, ?_, ?_⟩
    · show mapErase (schedIter s v (m + 1)).pending (s.nextTimer + m) ++
        [((schedIter s v (m + 1)).nextTimer, v)] = _
      rw [hpe, hn]
      have harith : s.nextTimer + m + 1 = s.nextTimer + (m + 1) := by omega
      rw [harith]
    · show (v, (schedIter s v (m + 1)).nextTimer) ::
        mapErase (schedIter s v (m + 1)).queues v = _
      rw [hqe, hn]
      have harith : s.nextTimer + m + 1 = s.nextTimer + (m + 1) := by omega
      rw [harith]
    · show (schedIter s v (m + 1)).nextTimer + 1 = _
      rw [hn]
      omega
    · exact hr
    · exact he
    · exact hs

lemma step_fire_exec (s : QState) (t : Nat) (v : String)
    (hfind : mapFind s.pending t = some v)
    (hnrun : mapFind s.running v = none) :
    step s (QEvent.fire t) = some
      { queues := mapErase s.queues v, pending := mapErase s.pending t,
        running := (v, t) :: s.running, settled := s.settled,
        execs := s.execs ++ [v], nextTimer := s.nextTimer } := by
  simp [step, hfind, hnrun]

lemma step_fire_reject (s : QState) (t : Nat) (v : String) (pid : Nat)
    (hfind : mapFind s.pending t = some v)
    (hrun : mapFind s.running v = some pid) :
    step s (QEvent.fire t) = some
      { queues := mapErase s.queues v, pending := mapErase s.pending t,
        running := s.running, settled := s.settled ++ [(t, false)],
        execs := s.execs, nextTimer := s.nextTimer } := by
  simp [step, hfind, hrun]

lemma step_finish (s : QState) (v : String) (ok : Bool) (pid : Nat)
    (hrun : mapFind s.running v = some pid) :
    step s (QEvent.finish v ok) = some
      { queues := s.queues, pending := s.pending,
        running := mapErase s.running v, settled := s.settled ++ [(pid, ok)],
        execs := s.execs, nextTimer := s.nextTimer } := by
  simp [step, hrun]

/-! ## C2: debounce collapses bursts -/

/-- C2: starting from a state with no timer and no running build for the
version, a burst of `N ≥ 1` `scheduleBuild` calls (each arriving while the
previous timer is still pending) leaves exactly one pending timer for the
version — the last one — and firing it executes the build exactly once. -/
theorem scheduleBuild_debounce_collapses (s : QState) (v : String) (N : Nat)
    (ok : Bool) (hN : 1 ≤ N)
    (hq : mapFind s.queues v = none)
    (hfresh : ∀ e ∈ s.pending, e.1 < s.nextTimer)
    (hnp : ∀ e ∈ s.pending, e.2 ≠ v)
    (hrun : mapFind s.running v = none) :
    run s (List.replicate N (QEvent.schedule v)) = some (schedIter s v N) ∧
    (schedIter s v N).pending.filter (fun e => decide (e.2 = v))
      = [(s.nextTimer + (N - 1), v)] ∧
    ∃ s3, run s (List.replicate N (QEvent.schedule v) ++
        [QEvent.fire (s.nextTimer + (N - 1)), QEvent.finish v ok]) = some s3 ∧
      s3.execs = s.execs ++ [v] := by
  obtain ⟨m, rfl⟩ : ∃ m, N = m + 1 := ⟨N - 1, by omega⟩
  obtain ⟨hp, hqs, hn, hr, he, hs⟩ := schedIter_spec s v hq hfresh m
  have hm1 : m + 1 - 1 = m := by omega
  have hfindp : mapFind (schedIter s v (m + 1)).pending (s.nextTimer + m) = some v := by
    rw [hp, mapFind_append_right _ (fun e heq => Nat.ne_of_lt
      (Nat.lt_of_lt_of_le (hfresh e heq) (Nat.le_add_right _ m)))]
    rw [mapFind, if_pos rfl]
  have hnrun : mapFind (schedIter s v (m + 1)).running v = none := by
    rw [hr]; exact hrun
  have hfire := step_fire_exec (schedIter s v (m + 1)) (s.nextTimer + m) v hfindp hnrun
  refine ⟨run_replicate_schedule v (m + 1) s, ?_, ?_⟩
  · rw [hm1, hp, List.filter_append]
    rw [List.filter_eq_nil_iff.mpr (fun e heq => by simp [hnp e heq])]
    simp
  · rw [hm1, run_append, run_replicate_schedule v (m + 1) s]
    have hfinish := step_finish
      { queues := mapErase (schedIter s v (m + 1)).queues v,
        pending := mapErase (schedIter s v (m + 1)).pending (s.nextTimer + m),
        running := (v, s.nextTimer + m) :: (schedIter s v (m + 1)).running,
        settled := (schedIter s v (m + 1)).settled,
        execs := (schedIter s v (m + 1)).execs ++ [v],
        nextTimer := (schedIter s v (m + 1)).nextTimer }
      v ok (s.nextTimer + m) (by rw [mapFind, if_pos rfl])
    refine ⟨{ queues := mapErase (schedIter s v (m + 1)).queues v,
              pending := mapErase (schedIter s v (m + 1)).pending (s.nextTimer + m),
              running := mapErase ((v, s.nextTimer + m) ::
                (schedIter s v (m + 1)).running) v,
              settled := (schedIter s v (m + 1)).settled ++ [(s.nextTimer + m, ok)],
              execs := (schedIter s v (m + 1)).execs ++ [v],
              nextTimer := (schedIter s v (m + 1)).nextTimer }, ?_, ?_⟩
    · show run (schedIter s v (m + 1)) [QEvent.fire (s.nextTimer + m),
        QEvent.finish v ok] = _
      simp only [run, hfire, hfinish]
    · simp [he]

/-- Witness for C2: three back-to-back `scheduleBuild` calls for `a` from
the fresh queue leave only timer `2` pending, and firing it runs exactly
one build. -/
theorem scheduleBuild_debounce_collapses_witness :
    run QState.init (List.replicate 3 (QEvent.schedule "a"))
      = some (schedIter QState.init "a" 3) ∧
    (schedIter QState.init "a" 3).pending.filter (fun e => decide (e.2 = "a"))
      = [(0 + (3 - 1), "a")] ∧
    ∃ s3, run QState.init (List.replicate 3 (QEvent.schedule "a") ++
        [QEvent.fire (0 + (3 - 1)), QEvent.finish "a" true]) = some s3 ∧
      s3.execs = [] ++ ["a"] :=
  scheduleBuild_debounce_collapses QState.init "a" 3 true (by decide) rfl
    (by simp [QState.init]) (by simp [QState.init]) rfl

/-! ## More association-list lemmas -/

lemma mapFind_none_fst {α β : Type} [DecidableEq α] {l : List (α × β)} {k : α}
    (h : mapFind l k = none) : ∀ e ∈ l, e.1 ≠ k := by
  induction l with
  | nil => intro e he; cases he
  | cons x xs ih =>
    intro e he
    by_cases hx : x.1 = k
    · rw [mapFind, if_pos hx] at h
      cases h
    · rw [mapFind, if_neg hx] at h
      rw [List.mem_cons] at he
      rcases he with he | he
      · exact he ▸ hx
      · exact ih h e he

lemma mapErase_sublist {α β : Type} [DecidableEq α] (l : List (α × β)) (k : α) :
    List.Sublist (mapErase l k) l := by
  induction l with
  | nil => exact List.Sublist.refl []
  | cons x xs ih =>
    by_cases hx : x.1 = k
    · rw [mapErase, if_pos hx]
      exact ih.cons x
    · rw [mapErase, if_neg hx]
      exact ih.cons₂ x

lemma mapFind_mapErase {α β : Type} [DecidableEq α] (l : List (α × β)) (k : α) :
    mapFind (mapErase l k) k = none :=
  mapFind_eq_none (fun e he => mapErase_fst_ne e he)

/-- The pending list after a `scheduleBuild` call: some subset of the old
pending timers (the version's own timer removed), then the fresh timer. -/
lemma schedStep_pending_shape (s : QState) (v : String) :
    ∃ cleared, (schedStep s v).pending = cleared ++ [(s.nextTimer, v)] ∧
      ∀ e ∈ cleared, e ∈ s.pending := by
  cases hq : mapFind s.queues v with
  | none =>
    exact ⟨s.pending, by rw [schedStep_of_find_none s v hq], fun e he => he⟩
  | some t0 =>
    exact ⟨mapErase s.pending t0, by rw [schedStep_of_find_some s v t0 hq],
      fun e he => mapErase_subset e he⟩

/-! ## C1: single-flight -/

/-- C1 counterexample: schedule, let the timer fire (the build starts),
schedule again while the build is running, and let the second timer fire
before the build finishes.  `executeBuild` throws — promise `1` is rejected
(`(1, false)` is settled) and the execution log still holds a single run:
the re-request produced zero additional executions instead of one. -/
theorem scheduleBuild_during_run_dropped :
    run QState.init [QEvent.schedule "a", QEvent.fire 0, QEvent.schedule "a",
        QEvent.fire 1, QEvent.finish "a" true]
      = some { queues := [], pending := [], running := [],
               settled := [(1, false), (0, true)], execs := ["a"], nextTimer := 2 } := by
  decide

/-- C1 amended: a `scheduleBuild` issued while the version's build is
running never starts a second concurrent execution (the running set stays
duplicate-free), and when the running build finishes before the new timer
fires, the timer then fires and executes exactly one additional build; but
the request is not guaranteed a further run — if its timer fires while the
build is still running, `executeBuild` throws and the request is dropped. -/
theorem scheduleBuild_single_flight :
    (∀ (s : QState) (e : QEvent) (s' : QState),
        (s.running.map Prod.fst).Nodup → step s e = some s' →
        (s'.running.map Prod.fst).Nodup) ∧
    (∀ (s : QState) (v : String) (pid : Nat) (ok : Bool),
        mapFind s.running v = some pid →
        (∀ e ∈ s.pending, e.1 < s.nextTimer) →
        ∃ s3, run s [QEvent.schedule v, QEvent.finish v ok, QEvent.fire s.nextTimer]
            = some s3 ∧ s3.execs = s.execs ++ [v]) := by
  constructor
  · intro s e s' hnd hstep
    cases e with
    | schedule v =>
      have hv : s' = schedStep s v := by
        simp only [step] at hstep
        exact (Option.some_injective _ hstep).symm
      subst hv
      exact hnd
    | fire t =>
      cases hfind : mapFind s.pending t with
      | none => simp [step, hfind] at hstep
      | some v =>
        cases hrun : mapFind s.running v with
        | some pid =>
          rw [step_fire_reject s t v pid hfind hrun] at hstep
          have hv : s' = _ := (Option.some_injective _ hstep).symm
          subst hv
          exact hnd
        | none =>
          rw [step_fire_exec s t v hfind hrun] at hstep
          have hv : s' = _ := (Option.some_injective _ hstep).symm
          subst hv
          refine List.Nodup.cons ?_ hnd
          intro hmem
          obtain ⟨e, he, hfst⟩ := List.mem_map.mp hmem
          exact mapFind_none_fst hrun e he hfst
    | finish v ok =>
      cases hfind : mapFind s.running v with
      | none => simp [step, hfind] at hstep
      | some pid =>
        rw [step_finish s v ok pid hfind] at hstep
        have hv : s' = _ := (Option.some_injective _ hstep).symm
        subst hv
        exact hnd.sublist ((mapErase_sublist s.running v).map Prod.fst)
  · intro s v pid ok hrun hfresh
    obtain ⟨cleared, hcl, hsub⟩ := schedStep_pending_shape s v
    have hs1 : step s (QEvent.schedule v) = some (schedStep s v) := rfl
    have hs2 : step (schedStep s v) (QEvent.finish v ok) = some
        { queues := (schedStep s v).queues, pending := (schedStep s v).pending,
          running := mapErase (schedStep s v).running v,
          settled := (schedStep s v).settled ++ [(pid, ok)],
          execs := (schedStep s v).execs,
          nextTimer := (schedStep s v).nextTimer } :=
      step_finish (schedStep s v) v ok pid hrun
    have hfind3 : mapFind (schedStep s v).pending s.nextTimer = some v := by
      rw [hcl, mapFind_append_right _
        (fun e he => Nat.ne_of_lt (hfresh e (hsub e he)))]
      rw [mapFind, if_pos rfl]
    have hnone3 : mapFind (mapErase (schedStep s v).running v) v = none :=
      mapFind_mapErase _ v
    have hs3 := step_fire_exec
      { queues := (schedStep s v).queues, pending := (schedStep s v).pending,
        running := mapErase (schedStep s v).running v,
        settled := (schedStep s v).settled ++ [(pid, ok)],
        execs := (schedStep s v).execs,
        nextTimer := (schedStep s v).nextTimer }
      s.nextTimer v hfind3 hnone3
    refine ⟨{ queues := mapErase (schedStep s v).queues v,
              pending := mapErase (schedStep s v).pending s.nextTimer,
              running := (v, s.nextTimer) :: mapErase (schedStep s v).running v,
              settled := (schedStep s v).settled ++ [(pid, ok)],
              execs := (schedStep s v).execs ++ [v],
              nextTimer := (schedStep s v).nextTimer }, ?_, ?_⟩
    · simp only [run, hs1, hs2, hs3]
    · rfl

/-- Witness for C1 amended: from a state where `a` is mid-build (one
execution logged), scheduling again, finishing the build, then letting the
new timer fire yields exactly one additional execution; and the running
set of a fresh schedule step is duplicate-free. -/
theorem scheduleBuild_single_flight_witness :
    ((schedStep QState.init "a").running.map Prod.fst).Nodup ∧
    (∃ s3, run ⟨[], [], [("a", 0)], [], ["a"], 1⟩
        [QEvent.schedule "a", QEvent.finish "a" true, QEvent.fire 1] = some s3 ∧
      s3.execs = ["a"] ++ ["a"]) :=
  ⟨scheduleBuild_single_flight.1 QState.init (QEvent.schedule "a")
      (schedStep QState.init "a") (by simp [QState.init]) rfl,
    scheduleBuild_single_flight.2 ⟨[], [], [("a", 0)], [], ["a"], 1⟩ "a" 0 true rfl
      (by simp)⟩

/-! ## C10: a superseded promise never settles -/

lemma deadId_step {t : Nat} {s s' : QState} {e : QEvent}
    (hd : deadId t s) (hstep : step s e = some s') : deadId t s' := by
  obtain ⟨h1, h2, h3, h4⟩ := hd
  cases e with
  | schedule v =>
    have hv : s' = schedStep s v := by
      simp only [step] at hstep
      exact (Option.some_injective _ hstep).symm
    subst hv
    obtain ⟨cleared, hcl, hsub⟩ := schedStep_pending_shape s v
    refine ⟨?_, h2, h3, Nat.lt_succ_of_lt h4⟩
    intro e he
    rw [hcl, List.mem_append] at he
    rcases he with he | he
    · exact h1 e (hsub e he)
    · rw [List.mem_singleton] at he
      rw [he]
      exact (Nat.ne_of_lt h4).symm
  | fire t' =>
    cases hfind : mapFind s.pending t' with
    | none => simp [step, hfind] at hstep
    | some v =>
      have hne : t' ≠ t := h1 _ (mapFind_some_mem hfind)
      cases hrun : mapFind s.running v with
      | some pid =>
        rw [step_fire_reject s t' v pid hfind hrun] at hstep
        have hv : s' = _ := (Option.some_injective _ hstep).symm
        subst hv
        refine ⟨fun e he => h1 e (mapErase_subset e he), h2, ?_, h4⟩
        intro e he
        rw [List.mem_append] at he
        rcases he with he | he
        · exact h3 e he
        · rw [List.mem_singleton] at he
          rw [he]
          exact hne
      | none =>
        rw [step_fire_exec s t' v hfind hrun] at hstep
        have hv : s' = _ := (Option.some_injective _ hstep).symm
        subst hv
        refine ⟨fun e he => h1 e (mapErase_subset e he), ?_, h3, h4⟩
        intro e he
        rw [List.mem_cons] at he
        rcases he with he | he
        · rw [he]
          exact hne
        · exact h2 e he
  | finish v ok =>
    cases hfind : mapFind s.running v with
    | none => simp [step, hfind] at hstep
    | some pid =>
      have hne : pid ≠ t := h2 _ (mapFind_some_mem hfind)
      rw [step_finish s v ok pid hfind] at hstep
      have hv : s' = _ := (Option.some_injective _ hstep).symm
      subst hv
      refine ⟨h1, fun e he => h2 e (mapErase_subset e he), ?_, h4⟩
      intro e he
      rw [List.mem_append] at he
      rcases he with he | he
      · exact h3 e he
      · rw [List.mem_singleton] at he
        rw [he]
        exact hne

lemma deadId_run {t : Nat} :
    ∀ (tr : List QEvent) (s s2 : QState),
      deadId t s → run s tr = some s2 → deadId t s2 := by
  intro tr
  induction tr with
  | nil =>
    intro s s2 hd hrun
    obtain rfl := Option.some_injective _ hrun
    exact hd
  | cons e es ih =>
    intro s s2 hd hrun
    rw [run] at hrun
    cases hstep : step s e with
    | none => rw [hstep] at hrun; cases hrun
    | some s1 =>
      rw [hstep] at hrun
      exact ih s1 s2 (deadId_step hd hstep) hrun

/-- C10: when a `scheduleBuild` call supersedes the version's pending timer
`t`, that timer is cleared and the promise created with it can never settle:
after any further sequence of events, no pending timer carries id `t` and
no settled promise carries id `t`. -/
theorem scheduleBuild_supersedes_promise (s : QState) (v : String) (t : Nat)
    (hq : mapFind s.queues v = some t)
    (hrun : ∀ e ∈ s.running, e.2 ≠ t)
    (hset : ∀ e ∈ s.settled, e.1 ≠ t)
    (hfresh : t < s.nextTimer)
    (tr : List QEvent) (s2 : QState)
    (h : run (schedStep s v) tr = some s2) :
    (∀ e ∈ s2.pending, e.1 ≠ t) ∧ (∀ e ∈ s2.settled, e.1 ≠ t) := by
  have hd : deadId t (schedStep s v) := by
    rw [schedStep_of_find_some s v t hq]
    refine ⟨?_, hrun, hset, Nat.lt_succ_of_lt hfresh⟩
    intro e he
    rw [List.mem_append] at he
    rcases he with he | he
    · exact mapErase_fst_ne e he
    · rw [List.mem_singleton] at he
      rw [he]
      exact (Nat.ne_of_lt hfresh).symm
  obtain ⟨h1, _, h3, _⟩ := deadId_run tr (schedStep s v) s2 hd h
  exact ⟨h1, h3⟩

/-- Witness for C10: with timer/promise `0` pending for `a`, a second
`scheduleBuild` clears it; immediately afterwards id `0` is neither pending
nor settled. -/
theorem scheduleBuild_supersedes_promise_witness :
    (∀ e ∈ (schedStep ⟨[("a", 0)], [(0, "a")], [], [], [], 1⟩ "a").pending, e.1 ≠ 0) ∧
    (∀ e ∈ (schedStep ⟨[("a", 0)], [(0, "a")], [], [], [], 1⟩ "a").settled, e.1 ≠ 0) :=
  scheduleBuild_supersedes_promise ⟨[("a", 0)], [(0, "a")], [], [], [], 1⟩ "a" 0 rfl
    (by simp) (by simp) (by decide) []
    (schedStep ⟨[("a", 0)], [(0, "a")], [], [], [], 1⟩ "a") rfl

end Pluie
